import Mathlib

/-!
Verification of the metadata reconciliation and file-placement engine of
process_google_photos.py.

The Python source is shallowly embedded below.  Machine integers are Int or
Nat, datetimes are modelled by an explicit civil-calendar structure together
with proleptic-Gregorian conversions (the calendar arithmetic performed by
Python's datetime module), timezones are modelled as their UTC-offset
functions (seconds of offset as a function of the absolute instant), and the
filesystem is modelled as a finite list of path records.  Fallible code
returns Option or Except.
-/

namespace GPhotos

/-! ## Calendar arithmetic

Models the civil-calendar computations performed by
datetime.fromtimestamp(ts, tz=timezone.utc) and datetime.timestamp() for
the proleptic Gregorian calendar.  The day count is decomposed
hierarchically into 400/100/4/1-year blocks, the same decomposition
CPython's datetime module uses internally. -/

/-- Year-of-era and day-of-year for a day-of-era in a 400-year Gregorian
cycle that starts on March 1.  Input doe lies in 0..146096; output is the
March-based year of the era (0..399) and the day within that year
(0..365, day 0 = March 1). -/
def civilYoeDoy (doe : Int) : Int × Int :=
  let n100 := doe / 36524
  let rem100 := doe % 36524
  let n4 := rem100 / 1461
  let rem4 := rem100 % 1461
  let n1 := rem4 / 365
  let rem1 := rem4 % 365
  if n100 = 4 then (399, 365)
  else if n1 = 4 then (100 * n100 + 4 * n4 + 3, 365)
  else (100 * n100 + 4 * n4 + n1, rem1)

/-- Month (March-based month index shifted into the civil 1..12 range) and
day-of-month from a day-of-year of a March-based year. -/
def mdOfDoy (doy : Int) : Int × Int :=
  let mp := (5 * doy + 2) / 153
  (mp + (if mp < 10 then 3 else -9), doy - (153 * mp + 2) / 5 + 1)

/-- Conversion of a day count relative to 1970-01-01 into a proleptic
Gregorian civil date (year, month, day); the date-component computation of
datetime.fromtimestamp(ts, tz=timezone.utc). -/
def civilFromDays (z0 : Int) : Int × Int × Int :=
  let z := z0 + 719468
  let era := z / 146097
  let doe := z % 146097
  let yd := civilYoeDoy doe
  let md := mdOfDoy yd.2
  (yd.1 + era * 400 + (if md.1 ≤ 2 then 1 else 0), md.1, md.2)

/-- Day-of-March-year from a civil month and day-of-month. -/
def doyOfMd (m d : Int) : Int :=
  (153 * (m + (if m > 2 then -3 else 9)) + 2) / 5 + d - 1

/-- Conversion of a proleptic Gregorian civil date into a day count relative
to 1970-01-01; the date-component computation of datetime.timestamp() on a
datetime tagged with timezone.utc. -/
def daysFromCivil (y m d : Int) : Int :=
  let y' := y - (if m ≤ 2 then 1 else 0)
  let era := y' / 400
  let yoe := y' - era * 400
  let doe := yoe * 365 + yoe / 4 - yoe / 100 + doyOfMd m d
  era * 146097 + doe - 719468

/-- A naive datetime value: the six civil wall-clock fields of a Python
datetime whose tzinfo is None, as produced by
datetime.fromtimestamp(..).replace(tzinfo=None) or
astimezone(..).replace(tzinfo=None). -/
structure NaiveDT where
  year : Int
  month : Int
  day : Int
  hour : Int
  minute : Int
  second : Int
deriving DecidableEq, Repr

/-- The naive UTC wall-clock of an absolute instant given in epoch seconds:
datetime.fromtimestamp(e, tz=timezone.utc).replace(tzinfo=None). -/
def epochToNaiveUtc (e : Int) : NaiveDT :=
  let z := e / 86400
  let sod := e % 86400
  let c := civilFromDays z
  { year := c.1, month := c.2.1, day := c.2.2,
    hour := sod / 3600, minute := sod % 3600 / 60, second := sod % 60 }

/-- The epoch seconds obtained by re-tagging a naive datetime as UTC and
taking its timestamp: int(dt.replace(tzinfo=timezone.utc).timestamp()). -/
def naiveAsUtcTimestamp (dt : NaiveDT) : Int :=
  daysFromCivil dt.year dt.month dt.day * 86400
    + dt.hour * 3600 + dt.minute * 60 + dt.second

/-! ## Sidecar record model

The parsed JSON sidecar document, restricted to the fields the program
reads: photoTakenTime.timestamp (a JSON string or number, possibly absent),
geoData.latitude and geoData.longitude (numbers, possibly absent, modelled
as exact rationals), and albumTitles (a list of strings). -/

/-- A JSON value found in the photoTakenTime.timestamp field: either a
string or a number. -/
inductive TSVal where
  | str (s : String)
  | num (n : Int)
deriving DecidableEq, Repr

/-- Python truthiness of a timestamp value: the empty string and the number
zero are falsy, everything else is truthy. -/
def tsTruthy : TSVal → Bool
  | .str s => !s.isEmpty
  | .num n => n != 0

/-- Value of a list of decimal digit characters, if all characters are
digits and the list is nonempty. -/
def decDigitsVal (l : List Char) : Option Nat :=
  if l.isEmpty then none
  else if l.all (fun c => c.isDigit) then
    some (l.foldl (fun a c => a * 10 + (c.toNat - 48)) 0)
  else none

/-- Python int(x) applied to a timestamp value: a number converts to itself,
a string is parsed as an optionally signed decimal numeral; none models a
ValueError. -/
def pyInt : TSVal → Option Int
  | .num n => some n
  | .str s =>
    match s.data with
    | '-' :: rest => (decDigitsVal rest).map (fun v => -(v : Int))
    | '+' :: rest => (decDigitsVal rest).map (fun v => (v : Int))
    | ds => (decDigitsVal ds).map (fun v => (v : Int))

/-- The geoData object of a sidecar record. -/
structure GeoData where
  latitude : Option ℚ
  longitude : Option ℚ
deriving DecidableEq, Repr

/-- A parsed sidecar record.  takenTimestamp models the chained lookup
meta.get(str1, dict()).get(str2) for the photo-taken-time timestamp: it is
none when either level of the nesting is absent. -/
structure Meta where
  takenTimestamp : Option TSVal
  geoData : Option GeoData
  albumTitles : List String
deriving DecidableEq, Repr

/-! ## Time/location extraction: get_taken_time and get_gps -/

/-- get_taken_time(meta, tz_name, use_utc).  The tz argument models the
result of looking up tz_name with ZoneInfo: some off gives the zone's UTC
offset in seconds as a function of the absolute instant, none models an
invalid or unavailable identifier (the ZoneInfo constructor raising, which
the source catches).  Except.error models an uncaught exception raised by
int(ts) on a malformed timestamp string; Except.ok none is the explicit
None return for a missing or falsy timestamp. -/
def get_taken_time (meta : Meta) (tz : Option (Int → Int)) (use_utc : Bool) :
    Except Unit (Option NaiveDT) :=
  match meta.takenTimestamp with
  | none => .ok none
  | some ts =>
    if tsTruthy ts then
      match pyInt ts with
      | none => .error ()
      | some n =>
        if use_utc then .ok (some (epochToNaiveUtc n))
        else
          match tz with
          | some off => .ok (some (epochToNaiveUtc (n + off n)))
          | none => .ok (some (epochToNaiveUtc n))
    else .ok none

/-- Latitude read from a sidecar record: geoData.latitude with a default of
0 at both levels of the lookup. -/
def geoLat (meta : Meta) : ℚ :=
  ((meta.geoData.getD { latitude := none, longitude := none }).latitude).getD 0

/-- Longitude read from a sidecar record, with the same defaulting. -/
def geoLon (meta : Meta) : ℚ :=
  ((meta.geoData.getD { latitude := none, longitude := none }).longitude).getD 0

/-- get_gps(meta): the pair (None, None) when both coordinates are exactly
zero, otherwise the coordinate pair. -/
def get_gps (meta : Meta) : Option ℚ × Option ℚ :=
  if geoLat meta = 0 ∧ geoLon meta = 0 then (none, none)
  else (some (geoLat meta), some (geoLon meta))

/-! ## Metadata writing: write_metadata -/

/-- Zero-padded two-digit rendering of a field value. -/
def pad2 (n : Int) : String :=
  if 0 ≤ n ∧ n < 10 then "0" ++ toString n else toString n

/-- Zero-padded four-digit rendering of a year value. -/
def pad4 (n : Int) : String :=
  if 0 ≤ n ∧ n < 10 then "000" ++ toString n
  else if 0 ≤ n ∧ n < 100 then "00" ++ toString n
  else if 0 ≤ n ∧ n < 1000 then "0" ++ toString n
  else toString n

/-- dt.strftime of the fixed format used by write_metadata: year, month and
day joined by colons, then a space, then hour, minute, second joined by
colons. -/
def date_str (dt : NaiveDT) : String :=
  pad4 dt.year ++ ":" ++ pad2 dt.month ++ ":" ++ pad2 dt.day ++ " "
    ++ pad2 dt.hour ++ ":" ++ pad2 dt.minute ++ ":" ++ pad2 dt.second

/-- One Field=Value assignment passed to the external exiftool process. -/
inductive ExifArg where
  | dateTimeOriginal (s : String)
  | createDate (s : String)
  | mediaCreateDate (s : String)
  | trackCreateDate (s : String)
  | modifyDate (s : String)
  | gpsLatitude (v : ℚ)
  | gpsLongitude (v : ℚ)
  | gpsLatitudeRef (c : Char)
  | gpsLongitudeRef (c : Char)
deriving DecidableEq, Repr

/-- Whether an argument is one of the four GPS assignments. -/
def isGpsArg : ExifArg → Bool
  | .gpsLatitude _ => true
  | .gpsLongitude _ => true
  | .gpsLatitudeRef _ => true
  | .gpsLongitudeRef _ => true
  | _ => false

/-- The list of Field=Value assignments write_metadata builds for the
external tool: date fields chosen by the video flag, then the GPS fields
when both coordinates are present. -/
def write_metadata_args (dt : NaiveDT) (lat lon : Option ℚ) (is_video : Bool) :
    List ExifArg :=
  let ds := date_str dt
  let dateArgs : List ExifArg :=
    if is_video then
      [.createDate ds, .mediaCreateDate ds, .trackCreateDate ds, .modifyDate ds]
    else
      [.dateTimeOriginal ds, .createDate ds, .modifyDate ds]
  let gpsArgs : List ExifArg :=
    match lat, lon with
    | some la, some lo =>
      [.gpsLatitude la, .gpsLongitude lo,
       .gpsLatitudeRef (if la ≥ 0 then 'N' else 'S'),
       .gpsLongitudeRef (if lo ≥ 0 then 'E' else 'W')]
    | _, _ => []
  dateArgs ++ gpsArgs

/-- The epoch seconds write_metadata passes to os.utime for both the access
and the modification time: int(dt.replace(tzinfo=timezone.utc).timestamp()). -/
def write_metadata_utime (dt : NaiveDT) : Int :=
  naiveAsUtcTimestamp dt

/-! ## Folder-name sanitisation: clean_name -/

/-- The characters the source replaces with a hyphen: backslash, slash,
colon, asterisk, question mark, double quote, angle brackets and pipe. -/
def isIllegalChar (c : Char) : Bool :=
  c = '\\' || c = '/' || c = ':' || c = '*' || c = '?' || c = '"' ||
  c = '<' || c = '>' || c = '|'

/-- Whitespace as matched by a Python regular expression over str and by
str.strip: the ASCII whitespace characters together with the Unicode
space-class characters CPython treats as whitespace. -/
def isPySpace (c : Char) : Bool :=
  c = ' ' || c = '\t' || c = '\n' || c = '\r' || c = '\x0b' || c = '\x0c' ||
  c = '\x1c' || c = '\x1d' || c = '\x1e' || c = '\x1f' || c = '\x85' ||
  c = '\xa0' || c = '\u1680' || c = '\u2000' || c = '\u2001' || c = '\u2002' ||
  c = '\u2003' || c = '\u2004' || c = '\u2005' || c = '\u2006' || c = '\u2007' ||
  c = '\u2008' || c = '\u2009' || c = '\u200a' || c = '\u2028' || c = '\u2029' ||
  c = '\u202f' || c = '\u205f' || c = '\u3000'

/-- Substitution of a hyphen for every illegal character. -/
def replaceIllegal (l : List Char) : List Char :=
  l.map fun c => if isIllegalChar c then '-' else c

/-- Replacement of every maximal run of whitespace by a single space, as a
left-to-right scan; the flag records whether the previous character belonged
to a whitespace run. -/
def collapseWsAux : Bool → List Char → List Char
  | _, [] => []
  | prev, c :: cs =>
    if isPySpace c then
      if prev then collapseWsAux true cs else ' ' :: collapseWsAux true cs
    else c :: collapseWsAux false cs

/-- Substitution of a single space for each maximal whitespace run. -/
def collapseWs (l : List Char) : List Char :=
  collapseWsAux false l

/-- str.strip(): removal of leading and trailing whitespace. -/
def stripWs (l : List Char) : List Char :=
  ((l.dropWhile isPySpace).reverse.dropWhile isPySpace).reverse

/-- Membership in the strip set of the final rstrip: period or space. -/
def isDotSpace (c : Char) : Bool :=
  c = '.' || c = ' '

/-- str.rstrip of periods and spaces. -/
def rstripDotSpace (l : List Char) : List Char :=
  (l.reverse.dropWhile isDotSpace).reverse

/-- The sanitisation pipeline applied to a nonempty name: illegal characters
to hyphens, whitespace runs to single spaces, surrounding whitespace
stripped, trailing periods and spaces stripped. -/
def cleanChars (l : List Char) : List Char :=
  rstripDotSpace (stripWs (collapseWs (replaceIllegal l)))

/-- clean_name(name): the fixed fallback label for a falsy (empty) input,
otherwise the sanitisation pipeline. -/
def clean_name (s : String) : String :=
  if s.isEmpty then "Unknown Album" else (cleanChars s.data).asString

/-! ## Collision-free placement: unique_path -/

/-- A destination path record: the containing folder, the filename stem and
the filename suffix, mirroring how pathlib decomposes the name for
with_stem. -/
structure FsPath where
  parent : String
  stem : String
  suffix : String
deriving DecidableEq, Repr

/-- path.with_stem applied to the numbered stem produced inside
unique_path's loop for the counter value i. -/
def pathCandidate (p : FsPath) (i : Nat) : FsPath :=
  { p with stem := p.stem ++ " (" ++ Nat.repr i ++ ")" }

/-- The while loop of unique_path: starting from counter value i, return the
first numbered candidate that does not exist.  The source's loop is
unbounded; a fuel of the number of existing files plus one is provably
enough for it to find a free candidate, so the bounded recursion computes
the same result the unbounded loop does. -/
def searchLoop (fs : List FsPath) (p : FsPath) : Nat → Nat → FsPath
  | i, 0 => pathCandidate p i
  | i, fuel + 1 =>
    if pathCandidate p i ∈ fs then searchLoop fs p (i + 1) fuel
    else pathCandidate p i

/-- unique_path(path) against the finite set fs of existing files: the
candidate itself when it does not exist, otherwise the first free numbered
variant starting from 1. -/
def unique_path (fs : List FsPath) (p : FsPath) : FsPath :=
  if p ∈ fs then searchLoop fs p 1 (fs.length + 1) else p

/-- Repeated placement of the same desired path into an initially empty
destination folder: each step records the file unique_path chose. -/
def placeRepeated (p : FsPath) : Nat → List FsPath
  | 0 => []
  | n + 1 =>
    let fs := placeRepeated p n
    fs ++ [unique_path fs p]

/-! ## Ingestion pipeline: the per-file body of main's walk loop -/

/-- The recognised photo extensions. -/
def PHOTO_EXTS : List String := [".jpg", ".jpeg", ".heic", ".png"]

/-- The recognised video extensions. -/
def VIDEO_EXTS : List String := [".mp4", ".mov", ".m4v"]

/-- All recognised media extensions. -/
def ALL_EXTS : List String := PHOTO_EXTS ++ VIDEO_EXTS

/-- State of the sidecar file computed by appending the JSON suffix to a
media file's full name: absent when no such file exists, malformed when
json.load raises, parsed otherwise. -/
inductive SidecarState where
  | absent
  | malformed
  | parsed (m : Meta)
deriving Repr

/-- A file encountered by the source-tree walk: its name decomposed into
stem and suffix the way pathlib decomposes it, its parent folder name, and
the state of its sidecar. -/
structure SrcFile where
  stem : String
  suffix : String
  parentName : String
  sidecar : SidecarState
deriving Repr

/-- A console line printed for one asset: the success line or the
per-asset failure line of the error boundary. -/
inductive OutLine where
  | success (name : String)
  | failure (name : String)
deriving DecidableEq, Repr

/-- The body of main's per-file loop, for one file: given the resolved
configured timezone and the current list of files existing in the
destination tree, returns the new destination list and the console line, if
any.  Skips (unrecognised extension, missing sidecar, missing or falsy
capture time) change nothing and print nothing; a malformed sidecar or an
int() failure is caught by the per-asset error boundary and prints a
failure line; otherwise the file is copied to the collision-free path and a
success line is printed. -/
def processFile (tz : Option (Int → Int)) (destFs : List FsPath) (f : SrcFile) :
    List FsPath × Option OutLine :=
  if f.suffix.toLower ∉ ALL_EXTS then (destFs, none)
  else
    match f.sidecar with
    | .absent => (destFs, none)
    | .malformed => (destFs, some (.failure (f.stem ++ f.suffix)))
    | .parsed meta =>
      match get_taken_time meta tz false with
      | .error _ => (destFs, some (.failure (f.stem ++ f.suffix)))
      | .ok none => (destFs, none)
      | .ok (some _) =>
        let folder :=
          match meta.albumTitles with
          | a :: _ => clean_name a
          | [] => clean_name f.parentName
        let newPath := unique_path destFs { parent := folder, stem := f.stem, suffix := f.suffix }
        (destFs ++ [newPath], some (.success (f.stem ++ f.suffix)))


/-! ## Decimal numeral helpers

Proof-level characterisation of the decimal rendering Nat.repr used by the
numbered-stem construction of unique_path. -/

/-- Decimal digit characters of a natural number, most significant first. -/
def decRepr (n : Nat) : List Char :=
  if _h : n < 10 then [Nat.digitChar n]
  else decRepr (n / 10) ++ [Nat.digitChar (n % 10)]
decreasing_by exact Nat.div_lt_self (by omega) (by norm_num)

/-- Value of a digit-character list read as a decimal numeral. -/
def digitsVal (l : List Char) : Nat :=
  l.foldl (fun a c => a * 10 + (c.toNat - 48)) 0

/-- Two adjacent characters with no whitespace pair among them: the
adjacency invariant of collapsed strings. -/
def spApart (a b : Char) : Prop :=
  ¬(isPySpace a = true ∧ isPySpace b = true)

/-! ## Calendar lemmas: the conversions are mutually inverse -/

/-- Quotient arithmetic for the year-of-era reconstruction: dividing the
recombined year-of-era by 4 and by 100 recovers the block indices. -/
theorem hier_quot (b c d : Int) (hc0 : 0 ≤ c) (hd0 : 0 ≤ d)
    (hc24 : c ≤ 24) (hd4 : d ≤ 3) :
    (100 * b + 4 * c + d) / 4 = 25 * b + c ∧ (100 * b + 4 * c + d) / 100 = b := by
  omega

/-- The hierarchical year-of-era and day-of-year decomposition is exact:
both components are in range and the leap-day accounting reconstructs the
day-of-era. -/
theorem civilYoeDoy_spec (doe : Int) (h0 : 0 ≤ doe) (h1 : doe ≤ 146096) :
    0 ≤ (civilYoeDoy doe).1 ∧ (civilYoeDoy doe).1 ≤ 399 ∧
    0 ≤ (civilYoeDoy doe).2 ∧ (civilYoeDoy doe).2 ≤ 365 ∧
    365 * (civilYoeDoy doe).1 + (civilYoeDoy doe).1 / 4 - (civilYoeDoy doe).1 / 100
      + (civilYoeDoy doe).2 = doe := by
  unfold civilYoeDoy
  simp only []
  split_ifs with hA hB
  · simp only []
    omega
  · simp only []
    obtain ⟨hq1, hq2⟩ := hier_quot (doe / 36524) (doe % 36524 / 1461) 3
      (by omega) (by omega) (by omega) (by omega)
    omega
  · simp only []
    obtain ⟨hq1, hq2⟩ := hier_quot (doe / 36524) (doe % 36524 / 1461)
      (doe % 36524 % 1461 / 365) (by omega) (by omega) (by omega) (by omega)
    omega

/-- The month and day-of-month encoding of a day-of-year is inverted exactly
by the day-of-year reconstruction used in the timestamp direction. -/
theorem doyOfMd_mdOfDoy (doy : Int) (h0 : 0 ≤ doy) (h1 : doy ≤ 365) :
    doyOfMd (mdOfDoy doy).1 (mdOfDoy doy).2 = doy := by
  unfold doyOfMd mdOfDoy
  simp only []
  split_ifs <;> omega

/-- Round trip of the civil-date conversions: converting a day count to a
Gregorian date and back is the identity. -/
theorem daysFromCivil_civilFromDays (z0 : Int) :
    daysFromCivil (civilFromDays z0).1 (civilFromDays z0).2.1 (civilFromDays z0).2.2 = z0 := by
  have hdoe0 : 0 ≤ (z0 + 719468) % 146097 := Int.emod_nonneg _ (by norm_num)
  have hdoe1 : (z0 + 719468) % 146097 ≤ 146096 := by
    have := Int.emod_lt_of_pos (z0 + 719468) (show (0:Int) < 146097 by norm_num)
    omega
  have hzd := Int.ediv_add_emod (z0 + 719468) 146097
  obtain ⟨hy0, hy1, hd0, hd1, hrec⟩ := civilYoeDoy_spec _ hdoe0 hdoe1
  have hmd := doyOfMd_mdOfDoy _ hd0 hd1
  unfold civilFromDays daysFromCivil
  simp only []
  rw [hmd]
  generalize (if (mdOfDoy (civilYoeDoy ((z0 + 719468) % 146097)).2).1 ≤ 2 then (1:Int) else 0) = t
  generalize hgy : (civilYoeDoy ((z0 + 719468) % 146097)).1 = yoe at hy0 hy1 hrec ⊢
  generalize hgd : (civilYoeDoy ((z0 + 719468) % 146097)).2 = doy at hd0 hd1 hrec ⊢
  generalize hgE : (z0 + 719468) / 146097 = E at hzd ⊢
  generalize hgD : (z0 + 719468) % 146097 = doeV at hzd hrec ⊢
  have hq400 : (yoe + E * 400 + t - t) / 400 = E := by omega
  rw [hq400]
  have hy' : yoe + E * 400 + t - t - E * 400 = yoe := by ring
  rw [hy']
  omega

/-- Round trip between epoch seconds and naive UTC wall-clock datetimes:
re-tagging the extracted wall-clock as UTC and taking the timestamp
recovers the original epoch value. -/
theorem naiveAsUtcTimestamp_epochToNaiveUtc (e : Int) :
    naiveAsUtcTimestamp (epochToNaiveUtc e) = e := by
  unfold naiveAsUtcTimestamp epochToNaiveUtc
  simp only []
  rw [daysFromCivil_civilFromDays]
  omega


/-! ## Decimal numeral lemmas: Nat.repr is injective -/

/-- The fuelled digit loop of Nat.repr computes the digit list of its
argument, for sufficient fuel. -/
theorem toDigitsCore_eq_decRepr :
    forall (fuel n : Nat) (acc : List Char), n < fuel ->
      Nat.toDigitsCore 10 fuel n acc = decRepr n ++ acc := by
  intro fuel
  induction fuel with
  | zero => omega
  | succ fuel ih =>
    intro n acc hn
    simp only [Nat.toDigitsCore]
    by_cases h : n / 10 = 0
    · have h10 : n < 10 := by omega
      rw [decRepr]
      simp [h, h10, Nat.mod_eq_of_lt h10]
    · have h10 : ¬ n < 10 := by omega
      have hstep : decRepr n = decRepr (n / 10) ++ [Nat.digitChar (n % 10)] := by
        conv_lhs => rw [decRepr]
        simp [h10]
      rw [if_neg h, ih (n / 10) _ (by omega), hstep, List.append_assoc]
      rfl

/-- Nat.repr renders exactly the digit list of its argument. -/
theorem natRepr_eq_decRepr (n : Nat) : Nat.repr n = (decRepr n).asString := by
  unfold Nat.repr Nat.toDigits
  rw [toDigitsCore_eq_decRepr (n + 1) n [] (by omega)]
  simp

/-- Reading back a digit character produced by Nat.digitChar. -/
theorem digitChar_toNat_sub (d : Nat) (h : d < 10) :
    (Nat.digitChar d).toNat - 48 = d := by
  interval_cases d <;> decide

/-- Appending one digit multiplies the numeral value by ten and adds the
digit. -/
theorem digitsVal_append (l : List Char) (c : Char) :
    digitsVal (l ++ [c]) = digitsVal l * 10 + (c.toNat - 48) := by
  unfold digitsVal
  rw [List.foldl_append]
  rfl

/-- The decimal digit list of a natural number evaluates back to it. -/
theorem digitsVal_decRepr (n : Nat) : digitsVal (decRepr n) = n := by
  induction n using Nat.strong_induction_on with
  | _ n ih =>
    by_cases h : n < 10
    · rw [decRepr]
      simp only [h, dite_true]
      unfold digitsVal
      simp only [List.foldl_cons, List.foldl_nil, Nat.zero_mul, Nat.zero_add]
      exact digitChar_toNat_sub n h
    · rw [decRepr]
      simp only [h, dite_false]
      rw [digitsVal_append, ih (n / 10) (Nat.div_lt_self (by omega) (by norm_num)),
        digitChar_toNat_sub (n % 10) (by omega)]
      omega

/-- Distinct natural numbers have distinct decimal renderings. -/
theorem natRepr_inj {m n : Nat} (h : Nat.repr m = Nat.repr n) : m = n := by
  rw [natRepr_eq_decRepr, natRepr_eq_decRepr] at h
  have h2 : decRepr m = decRepr n := List.asString_inj.mp h
  calc m = digitsVal (decRepr m) := (digitsVal_decRepr m).symm
    _ = digitsVal (decRepr n) := by rw [h2]
    _ = n := digitsVal_decRepr n


/-! ## Placement lemmas: unique_path finds the least free numbered variant -/

/-- Numbered candidates with different counters are different paths. -/
theorem pathCandidate_inj (p : FsPath) {i j : Nat}
    (h : pathCandidate p i = pathCandidate p j) : i = j := by
  have hstem := congrArg FsPath.stem h
  simp only [pathCandidate] at hstem
  have hdata := congrArg String.data hstem
  simp only [String.data_append, List.append_assoc] at hdata
  have h1 := List.append_cancel_left hdata
  have h2 := List.append_cancel_left h1
  have h3 := List.append_cancel_right h2
  exact natRepr_inj (String.ext h3)

/-- A numbered candidate never equals the original path: its stem is
strictly longer. -/
theorem pathCandidate_ne_self (p : FsPath) (i : Nat) :
    pathCandidate p i ≠ p := by
  intro h
  have hstem := congrArg FsPath.stem h
  simp only [pathCandidate] at hstem
  have hlen := congrArg String.length hstem
  simp only [String.length_append] at hlen
  have h2 : 0 < " (".length := by decide
  have h3 : 0 < ")".length := by decide
  omega

/-- Pigeonhole: among the first length-plus-one numbered candidates at least
one does not exist in the destination list. -/
theorem exists_fresh (fs : List FsPath) (p : FsPath) :
    ∃ i, 1 ≤ i ∧ i ≤ fs.length + 1 ∧ pathCandidate p i ∉ fs := by
  by_contra hcon
  push_neg at hcon
  set L := (List.range (fs.length + 1)).map (fun k => pathCandidate p (k + 1)) with hL
  have hnodup : L.Nodup := by
    refine List.Nodup.map ?_ (List.nodup_range _)
    intro a b hab
    have := pathCandidate_inj p hab
    omega
  have hsub : ∀ x ∈ L, x ∈ fs := by
    intro x hx
    simp only [hL, List.mem_map, List.mem_range] at hx
    obtain ⟨k, hk, rfl⟩ := hx
    exact hcon (k + 1) (by omega) (by omega)
  have hcard : L.toFinset.card = L.length := List.toFinset_card_of_nodup hnodup
  have hlen : L.length = fs.length + 1 := by simp [hL]
  have hsubF : L.toFinset ⊆ fs.toFinset := by
    intro x hx
    exact List.mem_toFinset.mpr (hsub x (List.mem_toFinset.mp hx))
  have hle := Finset.card_le_card hsubF
  have hfs := List.toFinset_card_le fs
  omega

/-- The bounded search loop returns the least free candidate at or above its
starting counter, provided one lies within the fuel window. -/
theorem searchLoop_spec (fs : List FsPath) (p : FsPath) :
    ∀ (fuel i : Nat), (∃ j, i ≤ j ∧ j ≤ i + fuel ∧ pathCandidate p j ∉ fs) →
      ∃ j, i ≤ j ∧ searchLoop fs p i fuel = pathCandidate p j ∧
        pathCandidate p j ∉ fs ∧ ∀ k, i ≤ k → k < j → pathCandidate p k ∈ fs := by
  intro fuel
  induction fuel with
  | zero =>
    rintro i ⟨j, hj1, hj2, hj3⟩
    have hji : j = i := by omega
    subst hji
    exact ⟨j, Nat.le_refl _, rfl, hj3, fun k hk1 hk2 => by omega⟩
  | succ fuel ih =>
    rintro i ⟨j, hj1, hj2, hj3⟩
    simp only [searchLoop]
    by_cases hmem : pathCandidate p i ∈ fs
    · rw [if_pos hmem]
      have hji : j ≠ i := by
        intro h
        exact hj3 (h ▸ hmem)
      obtain ⟨j', h1, h2, h3, h4⟩ := ih (i + 1) ⟨j, by omega, by omega, hj3⟩
      refine ⟨j', by omega, h2, h3, fun k hk1 hk2 => ?_⟩
      rcases Nat.eq_or_lt_of_le hk1 with he | hl
      · exact he ▸ hmem
      · exact h4 k (by omega) hk2
    · rw [if_neg hmem]
      exact ⟨i, Nat.le_refl _, rfl, hmem, fun k hk1 hk2 => by omega⟩

/-- unique_path on a colliding candidate returns the least-numbered free
variant. -/
theorem unique_path_least (fs : List FsPath) (p : FsPath) (h : p ∈ fs) :
    ∃ i, 1 ≤ i ∧ unique_path fs p = pathCandidate p i ∧
      pathCandidate p i ∉ fs ∧ ∀ j, 1 ≤ j → j < i → pathCandidate p j ∈ fs := by
  unfold unique_path
  rw [if_pos h]
  obtain ⟨j, hj1, hj2, hj3⟩ := exists_fresh fs p
  obtain ⟨j', h1, h2, h3, h4⟩ := searchLoop_spec fs p (fs.length + 1) 1 ⟨j, hj1, by omega, hj3⟩
  exact ⟨j', h1, h2, h3, h4⟩

/-- unique_path never returns a path that already exists. -/
theorem unique_path_not_mem (fs : List FsPath) (p : FsPath) :
    unique_path fs p ∉ fs := by
  by_cases h : p ∈ fs
  · obtain ⟨i, _, h2, h3, _⟩ := unique_path_least fs p h
    rw [h2]
    exact h3
  · unfold unique_path
    rw [if_neg h]
    exact h

/-- Closed form of repeated placement: after n+1 placements the folder holds
the original name followed by the numbered variants 1 through n. -/
theorem placeRepeated_closed (p : FsPath) :
    ∀ n, placeRepeated p (n + 1) = p :: (List.range' 1 n).map (pathCandidate p) := by
  intro n
  induction n with
  | zero =>
    show placeRepeated p 0 ++ [unique_path (placeRepeated p 0) p] = _
    simp [placeRepeated, unique_path]
  | succ n ih =>
    have hmem : p ∈ placeRepeated p (n + 1) := by
      rw [ih]
      exact List.mem_cons_self _ _
    obtain ⟨i, hi1, hup, hfresh, hleast⟩ := unique_path_least _ p hmem
    have hmemk : ∀ k, 1 ≤ k → k ≤ n → pathCandidate p k ∈ placeRepeated p (n + 1) := by
      intro k h1 h2
      rw [ih]
      exact List.mem_cons_of_mem _ (List.mem_map.mpr
        ⟨k, List.mem_range'_1.mpr ⟨h1, by omega⟩, rfl⟩)
    have hnotmem : pathCandidate p (n + 1) ∉ placeRepeated p (n + 1) := by
      rw [ih]
      intro hcon
      rcases List.mem_cons.mp hcon with hc | hc
      · exact pathCandidate_ne_self p (n + 1) hc
      · obtain ⟨k, hk, he⟩ := List.mem_map.mp hc
        have hkn := List.mem_range'_1.mp hk
        have := pathCandidate_inj p he
        omega
    have hieq : i = n + 1 := by
      by_contra hne
      rcases Nat.lt_or_ge i (n + 1) with hl | hg
      · exact hfresh (hmemk i hi1 (by omega))
      · exact hnotmem (hleast (n + 1) (by omega) (by omega))
    show placeRepeated p (n + 1) ++ [unique_path (placeRepeated p (n + 1)) p] = _
    rw [hup, hieq, ih, List.range'_concat]
    simp [Nat.add_comm]

/-- One placement step beyond the first: the N-th placed file is the
numbered variant N minus one. -/
theorem placeRepeated_step (p : FsPath) (n : Nat) :
    placeRepeated p (n + 2) = placeRepeated p (n + 1) ++ [pathCandidate p (n + 1)] := by
  rw [placeRepeated_closed p (n + 1), placeRepeated_closed p n, List.range'_concat]
  simp [Nat.add_comm]


/-! ## Sanitisation lemmas: the pipeline is a projection onto clean names -/

/-- Reading off the first element of a dropWhile result refutes the
predicate. -/
theorem head?_dropWhile {p : Char → Bool} {l : List Char} {c : Char}
    (h : (List.dropWhile p l).head? = some c) : p c = false := by
  have hh := List.head?_dropWhile_not p l
  rw [h] at hh
  exact hh

/-- Hyphen substitution leaves no illegal character in its output. -/
theorem replaceIllegal_not_illegal (l : List Char) :
    ∀ c ∈ replaceIllegal l, isIllegalChar c = false := by
  intro c hc
  simp only [replaceIllegal, List.mem_map] at hc
  obtain ⟨a, _, rfl⟩ := hc
  by_cases h : isIllegalChar a
  · simp [h]
    decide
  · simp [h]

/-- Hyphen substitution fixes a list with no illegal characters. -/
theorem replaceIllegal_of_clean (l : List Char)
    (h : ∀ c ∈ l, isIllegalChar c = false) : replaceIllegal l = l := by
  unfold replaceIllegal
  have hcong : ∀ a ∈ l, (if isIllegalChar a then '-' else a) = id a := by
    intro a ha
    simp [h a ha]
  rw [List.map_congr_left hcong, List.map_id]

/-- Every character emitted by the whitespace collapse is a space or comes
from the input. -/
theorem collapseWsAux_mem :
    ∀ (l : List Char) (b : Bool) (c : Char), c ∈ collapseWsAux b l → c = ' ' ∨ c ∈ l := by
  intro l
  induction l with
  | nil =>
    intro b c hc
    simp [collapseWsAux] at hc
  | cons a t ih =>
    intro b c hc
    simp only [collapseWsAux] at hc
    by_cases hsp : isPySpace a
    · rw [if_pos hsp] at hc
      cases b with
      | true =>
        simp only [if_pos rfl] at hc
        rcases ih true c hc with h | h
        · exact Or.inl h
        · exact Or.inr (List.mem_cons_of_mem _ h)
      | false =>
        rw [if_neg Bool.false_ne_true] at hc
        rcases List.mem_cons.mp hc with h | h
        · exact Or.inl h
        · rcases ih true c h with h2 | h2
          · exact Or.inl h2
          · exact Or.inr (List.mem_cons_of_mem _ h2)
    · rw [if_neg hsp] at hc
      rcases List.mem_cons.mp hc with h | h
      · exact Or.inr (h ▸ List.mem_cons_self _ _)
      · rcases ih false c h with h2 | h2
        · exact Or.inl h2
        · exact Or.inr (List.mem_cons_of_mem _ h2)

/-- Every whitespace character emitted by the collapse is the plain space. -/
theorem collapseWsAux_spaces :
    ∀ (l : List Char) (b : Bool) (c : Char), c ∈ collapseWsAux b l →
      isPySpace c = true → c = ' ' := by
  intro l
  induction l with
  | nil =>
    intro b c hc
    simp [collapseWsAux] at hc
  | cons a t ih =>
    intro b c hc hsp2
    simp only [collapseWsAux] at hc
    by_cases hsp : isPySpace a
    · rw [if_pos hsp] at hc
      cases b with
      | true => exact ih true c (by simpa using hc) hsp2
      | false =>
        rw [if_neg Bool.false_ne_true] at hc
        rcases List.mem_cons.mp hc with h | h
        · exact h
        · exact ih true c h hsp2
    · rw [if_neg hsp] at hc
      rcases List.mem_cons.mp hc with h | h
      · rw [h] at hsp2
        exact absurd hsp2 (by simpa using hsp)
      · exact ih false c h hsp2

/-- After a whitespace run has been entered, the next emitted character is
not whitespace. -/
theorem collapseWsAux_true_head :
    ∀ (l : List Char) (c : Char), (collapseWsAux true l).head? = some c →
      isPySpace c = false := by
  intro l
  induction l with
  | nil =>
    intro c hc
    simp [collapseWsAux] at hc
  | cons a t ih =>
    intro c hc
    simp only [collapseWsAux] at hc
    by_cases hsp : isPySpace a
    · rw [if_pos hsp] at hc
      exact ih c (by simpa using hc)
    · rw [if_neg hsp] at hc
      simp only [List.head?_cons, Option.some.injEq] at hc
      rw [← hc]
      simpa using hsp

/-- The collapse output never contains two adjacent whitespace characters. -/
theorem collapseWsAux_chain :
    ∀ (l : List Char) (b : Bool), (collapseWsAux b l).Chain' spApart := by
  intro l
  induction l with
  | nil =>
    intro b
    simp [collapseWsAux]
  | cons a t ih =>
    intro b
    simp only [collapseWsAux]
    by_cases hsp : isPySpace a
    · rw [if_pos hsp]
      cases b with
      | true => simpa using ih true
      | false =>
        rw [if_neg Bool.false_ne_true, List.chain'_cons']
        refine ⟨?_, ih true⟩
        intro y hy
        have hhd := collapseWsAux_true_head t y (Option.mem_def.mp hy)
        exact fun hcon => by simp [hhd] at hcon
    · rw [if_neg hsp]
      rw [List.chain'_cons']
      refine ⟨?_, ih false⟩
      intro y _
      exact fun hcon => by simp [hcon.1] at hsp


/-- The collapse fixes any list whose whitespace characters are all plain
spaces and never adjacent; entering with the run flag set additionally
requires a non-whitespace head. -/
theorem collapseWsAux_fixed :
    ∀ (l : List Char) (b : Bool),
      (∀ c ∈ l, isPySpace c = true → c = ' ') →
      l.Chain' spApart →
      (b = true → ∀ c, l.head? = some c → isPySpace c = false) →
      collapseWsAux b l = l := by
  intro l
  induction l with
  | nil =>
    intro b _ _ _
    simp [collapseWsAux]
  | cons a t ih =>
    intro b hsp hch hhd
    simp only [collapseWsAux]
    by_cases ha : isPySpace a
    · cases b with
      | true =>
        have := hhd rfl a rfl
        rw [this] at ha
        cases ha
      | false =>
        rw [if_pos ha, if_neg Bool.false_ne_true]
        have ha' : a = ' ' := hsp a (List.mem_cons_self _ _) ha
        have hch' := List.chain'_cons'.mp hch
        have htl : collapseWsAux true t = t := by
          refine ih true (fun c hc h => hsp c (List.mem_cons_of_mem _ hc) h) hch'.2 ?_
          intro _ c hc
          have hadj := hch'.1 c (Option.mem_def.mpr hc)
          by_contra hcon
          exact hadj ⟨ha, by simpa using hcon⟩
        rw [htl, ha']
    · rw [if_neg ha]
      have hch' := List.chain'_cons'.mp hch
      rw [ih false (fun c hc h => hsp c (List.mem_cons_of_mem _ hc) h) hch'.2
        (fun hcon => by cases hcon)]

/-- Characters of the whitespace strip come from the input. -/
theorem stripWs_subset (l : List Char) : ∀ c ∈ stripWs l, c ∈ l := by
  intro c hc
  unfold stripWs at hc
  rw [List.mem_reverse] at hc
  have h1 := (List.dropWhile_sublist isPySpace).subset hc
  rw [List.mem_reverse] at h1
  exact (List.dropWhile_sublist isPySpace).subset h1

/-- Characters of the trailing-period strip come from the input. -/
theorem rstripDotSpace_subset (l : List Char) : ∀ c ∈ rstripDotSpace l, c ∈ l := by
  intro c hc
  unfold rstripDotSpace at hc
  rw [List.mem_reverse] at hc
  have h1 := (List.dropWhile_sublist isDotSpace).subset hc
  rw [List.mem_reverse] at h1
  exact h1

/-- The adjacency invariant survives reversal. -/
theorem chain_spApart_reverse {l : List Char} (h : l.Chain' spApart) :
    l.reverse.Chain' spApart := by
  rw [List.chain'_reverse]
  exact h.imp (fun a b hab hc => hab ⟨hc.2, hc.1⟩)

/-- The adjacency invariant survives the whitespace strip. -/
theorem stripWs_chain {l : List Char} (h : l.Chain' spApart) :
    (stripWs l).Chain' spApart := by
  unfold stripWs
  exact chain_spApart_reverse
    ((chain_spApart_reverse (h.suffix (List.dropWhile_suffix _))).suffix
      (List.dropWhile_suffix _))

/-- The adjacency invariant survives the trailing strip. -/
theorem rstripDotSpace_chain {l : List Char} (h : l.Chain' spApart) :
    (rstripDotSpace l).Chain' spApart := by
  unfold rstripDotSpace
  exact chain_spApart_reverse ((chain_spApart_reverse h).suffix (List.dropWhile_suffix _))

/-- A nonempty prefix starts with the same character as the whole list. -/
theorem head?_of_leadingPart {l₁ l₂ : List Char} {c : Char}
    (h : l₁ <+: l₂) (hc : l₁.head? = some c) : l₂.head? = some c := by
  obtain ⟨t, rfl⟩ := h
  cases l₁ with
  | nil => cases hc
  | cons a t1 =>
    simp only [List.head?_cons, Option.some.injEq] at hc
    simp [hc]

/-- The trailing strip is a prefix of its input. -/
theorem rstripDotSpace_leadingPart (l : List Char) : rstripDotSpace l <+: l := by
  unfold rstripDotSpace
  have h1 : l.reverse.dropWhile isDotSpace <:+ l.reverse := List.dropWhile_suffix _
  have h2 : (l.reverse.dropWhile isDotSpace).reverse.reverse <:+ l.reverse := by
    rwa [List.reverse_reverse]
  exact List.reverse_suffix.mp h2

/-- The whitespace strip starts with a non-whitespace character. -/
theorem stripWs_head {l : List Char} {c : Char} (hc : (stripWs l).head? = some c) :
    isPySpace c = false := by
  unfold stripWs at hc
  have hpre : ((l.dropWhile isPySpace).reverse.dropWhile isPySpace).reverse <+:
      l.dropWhile isPySpace := by
    have h2 : ((l.dropWhile isPySpace).reverse.dropWhile isPySpace).reverse.reverse <:+
        (l.dropWhile isPySpace).reverse := by
      rw [List.reverse_reverse]
      exact List.dropWhile_suffix _
    exact List.reverse_suffix.mp h2
  exact head?_dropWhile (head?_of_leadingPart hpre hc)

/-- The whitespace strip ends with a non-whitespace character. -/
theorem stripWs_last {l : List Char} {c : Char}
    (hc : (stripWs l).reverse.head? = some c) : isPySpace c = false := by
  unfold stripWs at hc
  rw [List.reverse_reverse] at hc
  exact head?_dropWhile hc

/-- The trailing strip ends with a character that is neither a period nor a
space. -/
theorem rstripDotSpace_last {l : List Char} {c : Char}
    (hc : (rstripDotSpace l).reverse.head? = some c) : isDotSpace c = false := by
  unfold rstripDotSpace at hc
  rw [List.reverse_reverse] at hc
  exact head?_dropWhile hc

/-- dropWhile fixes a list whose head refutes the predicate. -/
theorem dropWhile_of_head_not {p : Char → Bool} {l : List Char}
    (h : ∀ c, l.head? = some c → p c = false) : l.dropWhile p = l := by
  cases l with
  | nil => rfl
  | cons a t =>
    rw [List.dropWhile_cons, if_neg]
    rw [h a rfl]
    simp

/-- The whitespace strip fixes a list with non-whitespace head and last
characters. -/
theorem stripWs_of_clean {l : List Char}
    (hhd : ∀ c, l.head? = some c → isPySpace c = false)
    (hlast : ∀ c, l.reverse.head? = some c → isPySpace c = false) :
    stripWs l = l := by
  unfold stripWs
  rw [dropWhile_of_head_not hhd, dropWhile_of_head_not hlast, List.reverse_reverse]

/-- The trailing strip fixes a list not ending in a period or space. -/
theorem rstripDotSpace_of_clean {l : List Char}
    (hlast : ∀ c, l.reverse.head? = some c → isDotSpace c = false) :
    rstripDotSpace l = l := by
  unfold rstripDotSpace
  rw [dropWhile_of_head_not hlast, List.reverse_reverse]


/-- Every character of a sanitised name already passed the collapse. -/
theorem cleanChars_mem (l : List Char) :
    ∀ c ∈ cleanChars l, c ∈ collapseWs (replaceIllegal l) := by
  intro c hc
  unfold cleanChars at hc
  exact stripWs_subset _ c (rstripDotSpace_subset _ c hc)

/-- A sanitised name contains no illegal character. -/
theorem cleanChars_not_illegal (l : List Char) :
    ∀ c ∈ cleanChars l, isIllegalChar c = false := by
  intro c hc
  rcases collapseWsAux_mem _ false c (cleanChars_mem l c hc) with h | h
  · rw [h]
    decide
  · exact replaceIllegal_not_illegal l c h

/-- Every whitespace character of a sanitised name is the plain space. -/
theorem cleanChars_spaces (l : List Char) :
    ∀ c ∈ cleanChars l, isPySpace c = true → c = ' ' := by
  intro c hc
  exact collapseWsAux_spaces _ false c (cleanChars_mem l c hc)

/-- A sanitised name has no two adjacent whitespace characters. -/
theorem cleanChars_chain (l : List Char) : (cleanChars l).Chain' spApart := by
  unfold cleanChars
  exact rstripDotSpace_chain (stripWs_chain (collapseWsAux_chain _ false))

/-- A sanitised name does not start with whitespace. -/
theorem cleanChars_head {l : List Char} {c : Char}
    (hc : (cleanChars l).head? = some c) : isPySpace c = false := by
  unfold cleanChars at hc
  exact stripWs_head (head?_of_leadingPart (rstripDotSpace_leadingPart _) hc)

/-- A sanitised name does not end with a period or a space. -/
theorem cleanChars_last_dot {l : List Char} {c : Char}
    (hc : (cleanChars l).reverse.head? = some c) : isDotSpace c = false := by
  unfold cleanChars at hc
  exact rstripDotSpace_last hc

/-- A sanitised name does not end with whitespace. -/
theorem cleanChars_last_sp {l : List Char} {c : Char}
    (hc : (cleanChars l).reverse.head? = some c) : isPySpace c = false := by
  have hdot := cleanChars_last_dot hc
  have hmem : c ∈ cleanChars l := by
    rw [← List.mem_reverse]
    exact List.mem_of_mem_head? (Option.mem_def.mpr hc)
  by_contra hcon
  have hsp : isPySpace c = true := by
    cases hx : isPySpace c
    · exact absurd hx hcon
    · rfl
  have := cleanChars_spaces l c hmem hsp
  rw [this] at hdot
  cases hdot

/-- The sanitisation pipeline is idempotent on character lists. -/
theorem cleanChars_fixed (l : List Char) : cleanChars (cleanChars l) = cleanChars l := by
  conv_lhs => rw [cleanChars]
  rw [replaceIllegal_of_clean _ (cleanChars_not_illegal l)]
  rw [show collapseWs (cleanChars l) = cleanChars l from
    collapseWsAux_fixed _ false (cleanChars_spaces l) (cleanChars_chain l)
      (fun hcon => by cases hcon)]
  rw [stripWs_of_clean (fun c hc => cleanChars_head hc) (fun c hc => cleanChars_last_sp hc)]
  rw [rstripDotSpace_of_clean (fun c hc => cleanChars_last_dot hc)]


/-! ## Claim theorems -/

/-- C1, counterexample: the claim that the label produced by sanitisation is
never empty fails on the input consisting of a single period, which clean_name
maps to the empty string without substituting the fallback label. -/
theorem clean_name_dot_is_empty : clean_name "." = "" := by decide

/-- C1, amended: the fallback label is substituted exactly when the input
label itself is empty; a nonempty label whose sanitised form is empty yields
the empty string, so an empty result can only come from a nonempty input. -/
theorem clean_name_fallback_only_for_empty_input (s : String) :
    (s = "" → clean_name s = "Unknown Album") ∧ (clean_name s = "" → s ≠ "") := by
  constructor
  · intro h
    subst h
    decide
  · intro h hs
    subst hs
    exact absurd h (by decide)

/-- Witness for the amended C1 at the inputs the empty string and a single
period. -/
theorem clean_name_fallback_witness :
    clean_name "" = "Unknown Album" ∧ "." ≠ "" :=
  ⟨(clean_name_fallback_only_for_empty_input "").1 rfl,
   (clean_name_fallback_only_for_empty_input ".").2 (by decide)⟩

/-- C3, counterexample: sanitisation is not idempotent on the input
consisting of a single period: the first pass yields the empty string, the
second substitutes the fallback label. -/
theorem clean_name_dot_not_idempotent :
    clean_name (clean_name ".") ≠ clean_name "." := by decide

/-- C3, amended: sanitisation is idempotent on every input whose sanitised
result is nonempty. -/
theorem clean_name_idempotent_on_nonempty_result (s : String)
    (h : clean_name s ≠ "") : clean_name (clean_name s) = clean_name s := by
  by_cases hs : s.isEmpty
  · have hs' : s = "" := (String.isEmpty_iff s).mp hs
    subst hs'
    decide
  · have h1 : clean_name s = (cleanChars s.data).asString := by
      unfold clean_name
      rw [if_neg hs]
    by_cases h2 : ((cleanChars s.data).asString).isEmpty
    · exact absurd (h1.trans ((String.isEmpty_iff _).mp h2)) h
    · rw [h1]
      unfold clean_name
      rw [if_neg h2,
        show ((cleanChars s.data).asString).data = cleanChars s.data from
          List.toList_asString _,
        cleanChars_fixed]

/-- Witness for the amended C3 at a representative messy input. -/
theorem clean_name_idempotent_witness :
    clean_name " My*Photos.. " ≠ "" ∧
    clean_name (clean_name " My*Photos.. ") = clean_name " My*Photos.. " :=
  ⟨by decide, clean_name_idempotent_on_nonempty_result " My*Photos.. " (by decide)⟩

/-- C2, counterexample: with a sidecar capture timestamp of 100 and a
configured timezone whose UTC offset is 3600 seconds, the epoch passed to
os.utime is 3700, not the sidecar timestamp 100: the filesystem time is the
local wall-clock re-read as UTC, so it shifts by the zone offset. -/
theorem utime_epoch_shifted_by_offset :
    get_taken_time ⟨some (.num 100), none, []⟩ (some (fun _ => 3600)) false
        = .ok (some (epochToNaiveUtc 3700)) ∧
    write_metadata_utime (epochToNaiveUtc 3700) = 3700 ∧ (3700 : Int) ≠ 100 := by
  refine ⟨by norm_num [get_taken_time, tsTruthy, pyInt], ?_, by decide⟩
  decide

/-- C2, amended: for an asset processed with a valid non-UTC-mode timezone,
the epoch written by os.utime equals the sidecar capture instant plus the
configured zone's UTC offset at that instant; it equals the sidecar
timestamp exactly when that offset is zero. -/
theorem utime_epoch_eq_ts_plus_offset (meta : Meta) (off : Int → Int)
    (ts : TSVal) (n : Int) (dt : NaiveDT)
    (h1 : meta.takenTimestamp = some ts) (h2 : tsTruthy ts = true)
    (h3 : pyInt ts = some n)
    (h4 : get_taken_time meta (some off) false = .ok (some dt)) :
    write_metadata_utime dt = n + off n := by
  unfold get_taken_time at h4
  rw [h1] at h4
  simp only [h2, h3, if_true, Bool.false_eq_true, if_false] at h4
  have hdt : epochToNaiveUtc (n + off n) = dt := by
    simpa using h4
  rw [← hdt]
  exact naiveAsUtcTimestamp_epochToNaiveUtc (n + off n)

/-- Witness for the amended C2 at timestamp 5 and constant offset 100. -/
theorem utime_epoch_eq_ts_plus_offset_witness :
    write_metadata_utime (epochToNaiveUtc 105) = 5 + (fun _ : Int => (100 : Int)) 5 :=
  utime_epoch_eq_ts_plus_offset
    { takenTimestamp := some (.num 5), geoData := none, albumTitles := [] }
    (fun _ => 100) (.num 5) 5 (epochToNaiveUtc 105) rfl (by decide) (by decide) rfl

/-- C6: in UTC mode the extracted naive wall-clock is the UTC rendering of
the sidecar instant, the instant denoted by that wall-clock (read back as
UTC) is the sidecar instant, and the epoch written to the filesystem is that
same instant, so the embedded date string and the modification time denote
the same absolute instant as the input epoch. -/
theorem utc_mode_roundtrip (meta : Meta) (tz : Option (Int → Int))
    (ts : TSVal) (n : Int)
    (h1 : meta.takenTimestamp = some ts) (h2 : tsTruthy ts = true)
    (h3 : pyInt ts = some n) :
    get_taken_time meta tz true = .ok (some (epochToNaiveUtc n)) ∧
    naiveAsUtcTimestamp (epochToNaiveUtc n) = n ∧
    write_metadata_utime (epochToNaiveUtc n) = n := by
  refine ⟨?_, naiveAsUtcTimestamp_epochToNaiveUtc n, naiveAsUtcTimestamp_epochToNaiveUtc n⟩
  unfold get_taken_time
  rw [h1]
  simp [h2, h3]

/-- Witness for C6 at the scenario timestamp 1609459200. -/
theorem utc_mode_roundtrip_witness :
    get_taken_time ⟨some (.str "1609459200"), none, []⟩ none true
        = .ok (some (epochToNaiveUtc 1609459200)) ∧
    naiveAsUtcTimestamp (epochToNaiveUtc 1609459200) = 1609459200 ∧
    write_metadata_utime (epochToNaiveUtc 1609459200) = 1609459200 :=
  utc_mode_roundtrip _ none (.str "1609459200") 1609459200 rfl (by decide) (by decide)

/-- C9: a timezone-lookup failure is recovered by falling back to the UTC
wall-clock: with a usable timestamp and an invalid timezone the extractor
returns the naive UTC rendering of the instant rather than an error or a
skip. -/
theorem invalid_tz_falls_back_to_utc (meta : Meta) (ts : TSVal) (n : Int)
    (h1 : meta.takenTimestamp = some ts) (h2 : tsTruthy ts = true)
    (h3 : pyInt ts = some n) :
    get_taken_time meta none false = .ok (some (epochToNaiveUtc n)) := by
  unfold get_taken_time
  rw [h1]
  simp [h2, h3]

/-- Witness for C9 at a concrete record. -/
theorem invalid_tz_falls_back_to_utc_witness :
    get_taken_time ⟨some (.num 1700000000), none, []⟩ none false
        = .ok (some (epochToNaiveUtc 1700000000)) :=
  invalid_tz_falls_back_to_utc _ (.num 1700000000) 1700000000 rfl (by decide) (by decide)


/-- Without a coordinate pair, the argument list carries date fields only. -/
theorem write_metadata_args_no_gps (dt : NaiveDT) (vid : Bool) :
    ∀ a ∈ write_metadata_args dt none none vid, isGpsArg a = false := by
  intro a ha
  cases vid with
  | false =>
    simp [write_metadata_args] at ha
    rcases ha with rfl | rfl | rfl <;> rfl
  | true =>
    simp [write_metadata_args] at ha
    rcases ha with rfl | rfl | rfl | rfl <;> rfl

/-- C4: unique_path leaves a non-colliding candidate unchanged, never
returns an existing path, otherwise picks the numbered variant with the
least counter at least 1 whose path is free, and under repeated placement of
the same name into an initially empty folder the N-th placed file (N at
least 2) is the variant numbered N minus 1. -/
theorem unique_path_collision_free (fs : List FsPath) (p : FsPath) :
    (p ∉ fs → unique_path fs p = p) ∧
    unique_path fs p ∉ fs ∧
    (p ∈ fs → ∃ i, 1 ≤ i ∧ unique_path fs p = pathCandidate p i ∧
      pathCandidate p i ∉ fs ∧ ∀ j, 1 ≤ j → j < i → pathCandidate p j ∈ fs) ∧
    (∀ n, placeRepeated p (n + 2) = placeRepeated p (n + 1) ++ [pathCandidate p (n + 1)]) := by
  refine ⟨?_, unique_path_not_mem fs p, unique_path_least fs p, placeRepeated_step p⟩
  intro h
  unfold unique_path
  rw [if_neg h]

/-- Witness for C4 at a concrete folder state. -/
theorem unique_path_collision_free_witness :
    unique_path [] ⟨"Album", "IMG_0001", ".jpg"⟩ = ⟨"Album", "IMG_0001", ".jpg"⟩ ∧
    unique_path [⟨"Album", "IMG_0001", ".jpg"⟩] ⟨"Album", "IMG_0001", ".jpg"⟩
      ∉ [(⟨"Album", "IMG_0001", ".jpg"⟩ : FsPath)] ∧
    placeRepeated ⟨"Album", "IMG_0001", ".jpg"⟩ 2
      = placeRepeated ⟨"Album", "IMG_0001", ".jpg"⟩ 1
        ++ [pathCandidate ⟨"Album", "IMG_0001", ".jpg"⟩ 1] :=
  ⟨(unique_path_collision_free [] ⟨"Album", "IMG_0001", ".jpg"⟩).1 (by decide),
   (unique_path_collision_free [⟨"Album", "IMG_0001", ".jpg"⟩]
      ⟨"Album", "IMG_0001", ".jpg"⟩).2.1,
   (unique_path_collision_free [] ⟨"Album", "IMG_0001", ".jpg"⟩).2.2.2 0⟩

/-- C5: a record whose coordinates are both exactly zero (also by default
when absent) yields no location, and the exiftool invocation for it carries
no GPS field; when the coordinates are not simultaneously zero they are
returned as the authoritative pair. -/
theorem gps_zero_is_absent (meta : Meta) (dt : NaiveDT) (vid : Bool) :
    ((geoLat meta = 0 ∧ geoLon meta = 0) →
      get_gps meta = (none, none) ∧
      ∀ a ∈ write_metadata_args dt (get_gps meta).1 (get_gps meta).2 vid,
        isGpsArg a = false) ∧
    (¬(geoLat meta = 0 ∧ geoLon meta = 0) →
      get_gps meta = (some (geoLat meta), some (geoLon meta))) := by
  constructor
  · intro h
    have hg : get_gps meta = (none, none) := by
      unfold get_gps
      rw [if_pos h]
    refine ⟨hg, ?_⟩
    rw [hg]
    exact write_metadata_args_no_gps dt vid
  · intro h
    unfold get_gps
    rw [if_neg h]

/-- Witness for C5 at a record with zero coordinates and a record with the
scenario coordinates. -/
theorem gps_zero_is_absent_witness :
    (get_gps ⟨none, some ⟨some 0, some 0⟩, []⟩ = (none, none) ∧
      ∀ a ∈ write_metadata_args (epochToNaiveUtc 0)
        (get_gps ⟨none, some ⟨some 0, some 0⟩, []⟩).1
        (get_gps ⟨none, some ⟨some 0, some 0⟩, []⟩).2 false, isGpsArg a = false) ∧
    get_gps ⟨none, some ⟨some (51.5 : ℚ), some (-0.12 : ℚ)⟩, []⟩
      = (some (51.5 : ℚ), some (-0.12 : ℚ)) :=
  ⟨(gps_zero_is_absent ⟨none, some ⟨some 0, some 0⟩, []⟩ (epochToNaiveUtc 0) false).1
      (by constructor <;> decide),
   (gps_zero_is_absent ⟨none, some ⟨some (51.5 : ℚ), some (-0.12 : ℚ)⟩, []⟩
      (epochToNaiveUtc 0) false).2 (by norm_num [geoLat, geoLon])⟩

/-- C7: a media file whose sidecar file does not exist is skipped silently:
the destination list is unchanged and no console line is printed. -/
theorem missing_sidecar_skipped (tz : Option (Int → Int)) (destFs : List FsPath)
    (stem sfx parent : String) :
    processFile tz destFs ⟨stem, sfx, parent, .absent⟩ = (destFs, none) := by
  unfold processFile
  split_ifs <;> rfl

/-- C8: a sidecar record with no capture-timestamp field makes the extractor
return the no-time answer, and the pipeline skips the asset silently: no
copy and no console line. -/
theorem missing_timestamp_skipped (tz tz2 : Option (Int → Int)) (u : Bool)
    (geo : Option GeoData) (alb : List String) (destFs : List FsPath)
    (stem sfx parent : String) :
    get_taken_time ⟨none, geo, alb⟩ tz u = .ok none ∧
    processFile tz2 destFs ⟨stem, sfx, parent, .parsed ⟨none, geo, alb⟩⟩
      = (destFs, none) := by
  refine ⟨rfl, ?_⟩
  unfold processFile
  split_ifs <;> rfl

/-- C10: a present but falsy capture-timestamp value, the number 0 or the
empty string, is treated exactly like an absent one: the extractor returns
the no-time answer and the pipeline skips the asset, while the truthy
string zero is converted to a datetime. -/
theorem falsy_timestamp_skipped (tz : Option (Int → Int)) (u : Bool)
    (geo : Option GeoData) (alb : List String) (destFs : List FsPath)
    (stem sfx parent : String) :
    get_taken_time ⟨some (.num 0), geo, alb⟩ tz u = .ok none ∧
    get_taken_time ⟨some (.str ""), geo, alb⟩ tz u = .ok none ∧
    processFile tz destFs ⟨stem, sfx, parent, .parsed ⟨some (.num 0), geo, alb⟩⟩
      = (destFs, none) ∧
    processFile tz destFs ⟨stem, sfx, parent, .parsed ⟨some (.str ""), geo, alb⟩⟩
      = (destFs, none) ∧
    (∃ dt, get_taken_time ⟨some (.str "0"), geo, alb⟩ tz u = .ok (some dt)) := by
  refine ⟨rfl, rfl, ?_, ?_, ?_⟩
  · unfold processFile
    split_ifs <;> rfl
  · unfold processFile
    split_ifs <;> rfl
  · cases u with
    | true => exact ⟨epochToNaiveUtc 0, rfl⟩
    | false =>
      cases tz with
      | none => exact ⟨epochToNaiveUtc 0, rfl⟩
      | some off => exact ⟨epochToNaiveUtc (0 + off 0), rfl⟩

end GPhotos
